import Mathlib

/-
Verification of the file-region library (src/src/core.rs and src/src/error.rs)
against its natural-language specification.

Shallow embedding conventions:
- A Rust u64 value is a Nat together with explicit bounds: overflow-checked
  additions return Option Nat (checked_add), and the one unchecked u64
  addition in the source (offset + buf.len() in write, core.rs line 125)
  is modelled by wrapping_add, the release-mode wraparound semantics.
- A std ops Range of u64 is URange with fields start and stop
  (stop stands for the Rust field named end, a Lean keyword).
- The underlying file is modelled by its byte contents, a List Nat; the
  metadata length query is the list length (passed as a Nat where only the
  length matters). Seek plus a transfer is modelled as pure slicing: a read
  returns the available bytes, a write splices the buffer in, zero-padding
  any seek gap past the end of file, as POSIX files do.
- I/O never fails in the model, and a single read or write transfers the
  maximal count allowed by the bounds (the idealized short-read-free
  semantics); RegionError results are exactly the ones the Rust code
  computes by pure arithmetic before attempting any I/O.
-/

namespace FR

/-- 2 to the 64: one past the largest u64 value. -/
def u64Lim : Nat := 2 ^ 64

/-- A half-open interval of u64 byte offsets; embeds std ops Range of u64.
The field stop embeds the Rust field named end. -/
structure URange where
  start : Nat
  stop : Nat
deriving DecidableEq, Repr

/-- The RegionError enumeration from src/src/error.rs. -/
inductive RegionError where
  | StartOverflow
  | EndOverflow
  | StartOutOfBounds
  | EndOutOfBounds
deriving DecidableEq, Repr

/-- u64 checked_add: some sum when it fits in 64 bits, none on overflow. -/
def checked_add (a b : Nat) : Option Nat :=
  if a + b < u64Lim then some (a + b) else none

/-- u64 unchecked addition, release-mode semantics: wraps modulo 2 to the 64. -/
def wrapping_add (a b : Nat) : Nat :=
  (a + b) % u64Lim

/-- validate_range from core.rs lines 153 to 162: start at or past the length
is StartOutOfBounds, else stop past the length is EndOutOfBounds, else ok. -/
def validate_range (range : URange) (len : Nat) : Except RegionError Unit :=
  if range.start ≥ len then .error .StartOutOfBounds
  else if range.stop > len then .error .EndOutOfBounds
  else .ok ()

/-- subrange from core.rs lines 143 to 150: both endpoint additions are
overflow-checked independently, then the absolute range is validated
against the parent region's stop. -/
def subrange (parent child : URange) : Except RegionError URange :=
  match checked_add parent.start child.start with
  | none => .error .StartOverflow
  | some s =>
    match checked_add parent.start child.stop with
    | none => .error .EndOverflow
    | some e =>
      match validate_range ⟨s, e⟩ parent.stop with
      | .error err => .error err
      | .ok _ => .ok ⟨s, e⟩

/-- A FileRegion: a borrowed file handle (modelled by an identifier) plus an
absolute range. From core.rs lines 8 to 11. -/
structure FileRegion where
  file : Nat
  range : URange
deriving DecidableEq, Repr

/-- FileRegion subregion, core.rs lines 135 to 141: pure arithmetic via
subrange, keeping the same file handle. -/
def FileRegion.subregion (fr : FileRegion) (child : URange) :
    Except RegionError FileRegion :=
  match subrange fr.range child with
  | .error e => .error e
  | .ok r => .ok ⟨fr.file, r⟩

/-- from_file, core.rs lines 32 to 35: the range 0 .. file length. -/
def from_file (fileLen : Nat) : URange := ⟨0, fileLen⟩

/-- is_valid, core.rs lines 60 to 65: start strictly below the file length
and stop at most the file length. -/
def is_valid (range : URange) (fileLen : Nat) : Bool :=
  decide (range.start < fileLen) && decide (range.stop ≤ fileLen)

/-- validate, core.rs lines 71 to 75: validate_range against the file length
observed from metadata. -/
def validate (range : URange) (fileLen : Nat) : Except RegionError Unit :=
  validate_range range fileLen

/-- Region length, core.rs lines 48 to 50: stop minus start. -/
def len (range : URange) : Nat := range.stop - range.start

/-- read, core.rs lines 93 to 110: checked start addition (StartOverflow on
overflow), reject with StartOutOfBounds when the absolute start is at or past
the region's stop, else seek there and read up to
min of the buffer length and the region length saturating-minus offset bytes,
further limited by the bytes the file actually has there.
Returns the bytes read; the count the Rust call returns is their length. -/
def read (file : List Nat) (range : URange) (offset bufLen : Nat) :
    Except RegionError (List Nat) :=
  match checked_add range.start offset with
  | none => .error .StartOverflow
  | some start =>
    if start ≥ range.stop then .error .StartOutOfBounds
    else
      .ok ((file.drop start).take (min bufLen (len range - offset)))

/-- Splice buf into file at absolute position pos, zero-filling any gap when
pos is past the end of file (POSIX seek-past-end-then-write semantics). -/
def writeBytes (file : List Nat) (pos : Nat) (buf : List Nat) : List Nat :=
  file.take pos ++ List.replicate (pos - file.length) 0 ++ buf ++
    file.drop (pos + buf.length)

/-- write, core.rs lines 124 to 131: builds the candidate child range
offset .. offset + buf.len() — that inner addition is UNCHECKED u64
arithmetic in the source, hence wrapping_add here — passes it to subrange,
and on any RegionError returns it before any I/O, leaving the file unchanged;
on success seeks to the absolute start and writes the whole buffer.
Returns the result paired with the file contents afterwards. -/
def write (file : List Nat) (range : URange) (offset : Nat) (buf : List Nat) :
    Except RegionError Nat × List Nat :=
  match subrange range ⟨offset, wrapping_add offset buf.length⟩ with
  | .error e => (.error e, file)
  | .ok r => (.ok buf.length, writeBytes file r.start buf)

/-- Closed-form characterization of subrange as a chain of conditions. -/
theorem subrange_eq (p c : URange) :
    subrange p c =
      if u64Lim ≤ p.start + c.start then .error .StartOverflow
      else if u64Lim ≤ p.start + c.stop then .error .EndOverflow
      else if p.stop ≤ p.start + c.start then .error .StartOutOfBounds
      else if p.stop < p.start + c.stop then .error .EndOutOfBounds
      else .ok ⟨p.start + c.start, p.start + c.stop⟩ := by
  simp only [subrange, checked_add, validate_range, ge_iff_le, gt_iff_lt]
  rcases Nat.lt_or_ge (p.start + c.start) u64Lim with h1 | h1
  · simp only [if_pos h1, if_neg (Nat.not_le_of_lt h1)]
    rcases Nat.lt_or_ge (p.start + c.stop) u64Lim with h2 | h2
    · simp only [if_pos h2, if_neg (Nat.not_le_of_lt h2)]
      rcases Nat.lt_or_ge (p.start + c.start) p.stop with h3 | h3
      · simp only [if_neg (Nat.not_le_of_lt h3)]
        rcases Nat.lt_or_ge p.stop (p.start + c.stop) with h4 | h4
        · simp only [if_pos h4]
        · simp only [if_neg (Nat.not_lt_of_le h4)]
      · simp only [if_pos h3]
    · simp only [if_neg (Nat.not_lt_of_le h2), if_pos h2]
  · simp only [if_neg (Nat.not_lt_of_le h1), if_pos h1]

example : subrange ⟨1, 5⟩ ⟨0, 3⟩ = .ok ⟨1, 4⟩ := rfl
example : subrange ⟨0, 5⟩ ⟨5, 5⟩ = .error .StartOutOfBounds := rfl
example : subrange ⟨u64Lim - 11, u64Lim - 1⟩ ⟨11, 20⟩ = .error .StartOverflow := rfl
example : read [10, 11, 12, 13, 14] ⟨1, 4⟩ 0 10 = .ok [11, 12, 13] := rfl
example : (write [0, 0, 0, 0, 0] ⟨0, 5⟩ 1 [7, 8]).2 = [0, 7, 8, 0, 0] := rfl

/-- The unchecked addition agrees with plain addition below 2 to the 64. -/
theorem wrapping_add_eq_of_lt {a b : Nat} (h : a + b < u64Lim) :
    wrapping_add a b = a + b := Nat.mod_eq_of_lt h

/-- Closed-form characterization of read as a chain of conditions. -/
theorem read_eq (file : List Nat) (r : URange) (offset bufLen : Nat) :
    read file r offset bufLen =
      if u64Lim ≤ r.start + offset then .error .StartOverflow
      else if r.stop ≤ r.start + offset then .error .StartOutOfBounds
      else .ok ((file.drop (r.start + offset)).take (min bufLen (len r - offset))) := by
  simp only [read, checked_add, ge_iff_le]
  rcases Nat.lt_or_ge (r.start + offset) u64Lim with h | h
  · simp only [if_pos h, if_neg (Nat.not_le_of_lt h)]
  · simp only [if_neg (Nat.not_lt_of_le h), if_pos h]

/-- subrange succeeds exactly when neither endpoint addition overflows and the
absolute range passes validation against the parent's stop. -/
theorem subrange_ok_iff (p c q : URange) :
    subrange p c = .ok q ↔
      p.start + c.start < u64Lim ∧ p.start + c.stop < u64Lim ∧
      p.start + c.start < p.stop ∧ p.start + c.stop ≤ p.stop ∧
      q = ⟨p.start + c.start, p.start + c.stop⟩ := by
  rw [subrange_eq]
  split_ifs with h1 h2 h3 h4
  · exact ⟨fun h => h.elim, fun ⟨hA, _, _, _, _⟩ => absurd hA (by omega)⟩
  · exact ⟨fun h => h.elim, fun ⟨_, hB, _, _, _⟩ => absurd hB (by omega)⟩
  · exact ⟨fun h => h.elim, fun ⟨_, _, hC, _, _⟩ => absurd hC (by omega)⟩
  · exact ⟨fun h => h.elim, fun ⟨_, _, _, hD, _⟩ => absurd hD (by omega)⟩
  · constructor
    · intro h
      injection h with h'
      exact ⟨by omega, by omega, by omega, by omega, h'.symm⟩
    · rintro ⟨-, -, -, -, rfl⟩
      rfl

/-- subregion succeeds exactly when subrange does, keeping the file handle. -/
theorem subregion_ok_iff (fr : FileRegion) (c : URange) (q : FileRegion) :
    fr.subregion c = .ok q ↔
      subrange fr.range c = .ok q.range ∧ q.file = fr.file := by
  obtain ⟨qf, qr⟩ := q
  unfold FileRegion.subregion
  cases h : subrange fr.range c with
  | error e =>
      constructor
      · intro hc; exact Except.noConfusion hc
      · rintro ⟨hc, -⟩; exact Except.noConfusion hc
  | ok r =>
      constructor
      · intro hc
        injection hc with hc'
        injection hc' with hf hr
        exact ⟨by rw [hr], hf.symm⟩
      · rintro ⟨hc, rfl⟩
        injection hc with hc'
        rw [hc']

/-- Reading the written span back from writeBytes returns the buffer. -/
theorem writeBytes_span (file : List Nat) (pos : Nat) (buf : List Nat) :
    ((writeBytes file pos buf).drop pos).take buf.length = buf := by
  have hA : (file.take pos ++ List.replicate (pos - file.length) 0).length = pos := by
    simp only [List.length_append, List.length_take, List.length_replicate]
    omega
  have hsplit : writeBytes file pos buf =
      (file.take pos ++ List.replicate (pos - file.length) 0) ++
        (buf ++ file.drop (pos + buf.length)) := by
    simp [writeBytes, List.append_assoc]
  rw [hsplit, List.drop_left' hA, List.take_left' rfl]

/-- C4 — validate returns StartOutOfBounds exactly when start is at or past the
observed length, else EndOutOfBounds exactly when stop exceeds it, else Ok; and
subrange (the range check of write and subregion) applies the very same
validate_range rule with the length replaced by the parent region's stop. -/
theorem validate_rule_characterization (r : URange) (L : Nat) :
    (validate r L = .error .StartOutOfBounds ↔ L ≤ r.start) ∧
    (validate r L = .error .EndOutOfBounds ↔ r.start < L ∧ L < r.stop) ∧
    (validate r L = .ok () ↔ r.start < L ∧ r.stop ≤ L) ∧
    (∀ c s e, checked_add r.start c.start = some s →
      checked_add r.start c.stop = some e →
      subrange r c = (validate_range ⟨s, e⟩ r.stop).map fun _ => URange.mk s e) := by
  refine ⟨?_, ?_, ?_, ?_⟩
  · simp only [validate, validate_range, ge_iff_le, gt_iff_lt]
    split_ifs with h1 h2
    · simp only [Except.error.injEq, true_iff]
      omega
    · constructor
      · intro h
        injection h with h'
        exact absurd h' (by decide)
      · intro h; omega
    · exact ⟨fun h => h.elim, fun h => absurd h (by omega)⟩
  · simp only [validate, validate_range, ge_iff_le, gt_iff_lt]
    split_ifs with h1 h2
    · constructor
      · intro h
        injection h with h'
        exact absurd h' (by decide)
      · intro h; omega
    · simp only [Except.error.injEq, true_iff]
      omega
    · exact ⟨fun h => h.elim, fun h => absurd h.2 (by omega)⟩
  · simp only [validate, validate_range, ge_iff_le, gt_iff_lt]
    split_ifs with h1 h2
    · exact ⟨fun h => h.elim, fun h => absurd h.1 (by omega)⟩
    · exact ⟨fun h => h.elim, fun h => absurd h.2 (by omega)⟩
    · exact ⟨fun _ => ⟨by omega, by omega⟩, fun _ => rfl⟩
  · intro c s e h1 h2
    unfold subrange
    rw [h1, h2]
    dsimp only
    cases hv : validate_range ⟨s, e⟩ r.stop with
    | error err => rfl
    | ok a => rfl

/-- Witness for C4 at concrete inputs. -/
theorem validate_rule_characterization_witness :
    validate ⟨1, 4⟩ 5 = .ok () ∧ subrange ⟨1, 5⟩ ⟨0, 3⟩ = .ok ⟨1, 4⟩ := by
  constructor
  · exact (validate_rule_characterization ⟨1, 4⟩ 5).2.2.1.mpr (by decide)
  · rw [(validate_rule_characterization ⟨1, 5⟩ 5).2.2.2 ⟨0, 3⟩ 1 4 (by decide) (by decide)]
    rfl

/-- C8 — the boolean validity query agrees with the detailed one: is_valid is
true exactly when validate returns Ok, for every region and observed length. -/
theorem is_valid_iff_validate_ok (r : URange) (L : Nat) :
    is_valid r L = true ↔ validate r L = .ok () := by
  simp only [is_valid, validate, validate_range, Bool.and_eq_true, decide_eq_true_eq,
    ge_iff_le, gt_iff_lt]
  constructor
  · rintro ⟨h1, h2⟩
    rw [if_neg (by omega : ¬ L ≤ r.start), if_neg (by omega : ¬ L < r.stop)]
  · intro h
    by_cases h1 : L ≤ r.start
    · rw [if_pos h1] at h
      exact Except.noConfusion h
    · by_cases h2 : L < r.stop
      · rw [if_neg h1, if_pos h2] at h
        exact Except.noConfusion h
      · exact ⟨by omega, by omega⟩

/-- C3 — from_file spans the whole observed file, range 0 to the length; but
for a zero-length file the resulting region 0 .. 0 does NOT validate: validate
returns StartOutOfBounds, contradicting the claim (and the from_file doc
comment in core.rs, which asserts validity is guaranteed). For positive
lengths it does validate. -/
theorem from_file_empty_file_invalid :
    from_file 0 = ⟨0, 0⟩ ∧
    validate (from_file 0) 0 = .error .StartOutOfBounds ∧
    validate (from_file 7) 7 = .ok () :=
  ⟨rfl, rfl, rfl⟩

/-- C6 — the end addition of write's candidate range is NOT overflow-checked:
the source computes offset + buf.len() with a plain u64 addition (core.rs line
125) before subrange ever sees it. With region 0 .. u64::MAX, offset u64::MAX
and a 2-byte buffer, offset + buf.len() overflows (wrapping to 1 in release
builds, panicking in debug builds); the wrapped value makes write report
StartOutOfBounds instead of the EndOverflow the claim requires. -/
theorem write_end_addition_unchecked :
    u64Lim ≤ (u64Lim - 1) + ([0, 0] : List Nat).length ∧
    wrapping_add (u64Lim - 1) ([0, 0] : List Nat).length = 1 ∧
    (write [] ⟨0, u64Lim - 1⟩ (u64Lim - 1) [0, 0]).1 = .error .StartOutOfBounds := by
  refine ⟨by decide, by decide, rfl⟩

/-- C1 amended — write succeeds, reporting exactly buf.len() bytes written and
leaving the buffer readable at the written span, if and only if the absolute
start s + offset lies strictly inside the region (below its stop) and the
absolute end s + offset + buf.len() is at most the stop; in every failure case
it returns a RegionError before any I/O and every byte of the file is
unchanged. The hypothesis that offset + buf.len() fits in u64 excludes the
unchecked addition of C6; overflow of s + offset is subsumed by the strict
bound, since the stop is a u64 value. -/
theorem write_characterization (file : List Nat) (s e offset : Nat)
    (buf : List Nat) (hse : s ≤ e) (he : e < u64Lim)
    (hnw : offset + buf.length < u64Lim) :
    ((write file ⟨s, e⟩ offset buf).1 = .ok buf.length ∧
        ((write file ⟨s, e⟩ offset buf).2.drop (s + offset)).take buf.length = buf
      ↔ s + offset < e ∧ s + offset + buf.length ≤ e) ∧
    (∀ err, (write file ⟨s, e⟩ offset buf).1 = .error err →
      (write file ⟨s, e⟩ offset buf).2 = file) := by
  simp only [write, subrange_eq, wrapping_add_eq_of_lt hnw]
  split_ifs with h1 h2 h3 h4
  · exact ⟨⟨fun hc => hc.1.elim, fun h => absurd h (by omega)⟩, fun _ _ => rfl⟩
  · exact ⟨⟨fun hc => hc.1.elim, fun h => absurd h (by omega)⟩, fun _ _ => rfl⟩
  · exact ⟨⟨fun hc => hc.1.elim, fun h => absurd h (by omega)⟩, fun _ _ => rfl⟩
  · exact ⟨⟨fun hc => hc.1.elim, fun h => absurd h (by omega)⟩, fun _ _ => rfl⟩
  · refine ⟨⟨fun _ => ⟨by omega, by omega⟩, fun _ => ⟨rfl, ?_⟩⟩,
      fun err herr => absurd herr (by simp)⟩
    exact writeBytes_span file (s + offset) buf

/-- Witness for C1 at concrete inputs: a successful in-bounds write. -/
theorem write_characterization_witness :
    (write [0, 0, 0, 0, 0] ⟨0, 5⟩ 1 [7, 8]).1 = .ok 2 ∧
    ((write [0, 0, 0, 0, 0] ⟨0, 5⟩ 1 [7, 8]).2.drop (0 + 1)).take 2 = [7, 8] := by
  have h := (write_characterization [0, 0, 0, 0, 0] 0 5 1 [7, 8]
    (by decide) (by decide) (by decide)).1.mpr ⟨by decide, by decide⟩
  exact ⟨h.1, h.2⟩

/-- C1 counterexample — the claim's if-and-only-if fails for an empty buffer
whose absolute start lands exactly on the region's stop: no overflow occurs and
s + offset + buf.len() is at most the stop, so the claim demands success, yet
write returns StartOutOfBounds. -/
theorem write_empty_buffer_boundary_cex :
    (0 : Nat) + 5 < u64Lim ∧ 0 + 5 + ([] : List Nat).length ≤ 5 ∧
    (write [0, 0, 0, 0, 0] ⟨0, 5⟩ 5 []).1 = .error .StartOutOfBounds :=
  ⟨by decide, by decide, rfl⟩

/-- C2 amended — for a region that is within the file (stop at most the file
length): a read whose absolute start s + offset lies inside the region returns
exactly min of the buffer length and the bytes remaining to the region's stop,
and those bytes are the file's content at that absolute position; a read whose
absolute start is at or past the stop returns StartOutOfBounds and transfers
nothing. Without the validity hypothesis the count claim fails (see the
counterexample): the file itself may end before the region does. -/
theorem read_characterization (file : List Nat) (s e offset bufLen : Nat)
    (hval : e ≤ file.length) (hnov : s + offset < u64Lim) :
    (s + offset < e →
      read file ⟨s, e⟩ offset bufLen =
        .ok ((file.drop (s + offset)).take (min bufLen (e - (s + offset)))) ∧
      ((file.drop (s + offset)).take (min bufLen (e - (s + offset)))).length =
        min bufLen (e - (s + offset))) ∧
    (e ≤ s + offset → read file ⟨s, e⟩ offset bufLen = .error .StartOutOfBounds) := by
  constructor
  · intro hin
    constructor
    · rw [read_eq]
      rw [if_neg (by omega : ¬ u64Lim ≤ s + offset), if_neg (by omega : ¬ e ≤ s + offset)]
      simp only [len]
      rw [(by omega : e - s - offset = e - (s + offset))]
    · simp only [List.length_take, List.length_drop]
      omega
  · intro hout
    rw [read_eq]
    rw [if_neg (by omega : ¬ u64Lim ≤ s + offset), if_pos (by omega : e ≤ s + offset)]

/-- Witness for C2 at concrete inputs: an in-bounds read truncated at the
region's stop, and a rejected read starting at the stop. -/
theorem read_characterization_witness :
    read [1, 2, 3, 4, 5] ⟨1, 4⟩ 1 7 = .ok [3, 4] ∧
    read [1, 2, 3, 4, 5] ⟨1, 4⟩ 3 7 = .error .StartOutOfBounds := by
  constructor
  · exact ((read_characterization [1, 2, 3, 4, 5] 1 4 1 7 (by decide)
      (by decide)).1 (by decide)).1.trans rfl
  · exact (read_characterization [1, 2, 3, 4, 5] 1 4 3 7 (by decide)
      (by decide)).2 (by decide)

/-- C2 counterexample — without region validity the claimed count is wrong: a
region 0 .. 10 over a 5-byte file with a 10-byte buffer reads back only the 5
bytes the file has, not the claimed min of 10 and 10. -/
theorem read_short_at_eof_cex :
    read [0, 0, 0, 0, 0] ⟨0, 10⟩ 0 10 = .ok [0, 0, 0, 0, 0] ∧
    ([0, 0, 0, 0, 0] : List Nat).length = 5 ∧
    min 10 (10 - (0 + 0)) = 10 ∧ (5 : Nat) ≠ 10 :=
  ⟨rfl, by decide, by decide, by decide⟩

/-- C10 amended — an empty region start = stop is a dead window: every read
errors with StartOverflow or StartOutOfBounds, every write errors with
StartOverflow, EndOverflow or StartOutOfBounds, and the file is unchanged. -/
theorem empty_region_always_errors (file : List Nat) (s offset bufLen : Nat)
    (buf : List Nat) :
    (∃ err, read file ⟨s, s⟩ offset bufLen = .error err ∧
      (err = .StartOverflow ∨ err = .StartOutOfBounds)) ∧
    (∃ err, (write file ⟨s, s⟩ offset buf).1 = .error err ∧
      (err = .StartOverflow ∨ err = .EndOverflow ∨ err = .StartOutOfBounds)) ∧
    (write file ⟨s, s⟩ offset buf).2 = file := by
  refine ⟨?_, ?_, ?_⟩
  · rw [read_eq]
    by_cases h : u64Lim ≤ s + offset
    · exact ⟨.StartOverflow, by rw [if_pos h], Or.inl rfl⟩
    · refine ⟨.StartOutOfBounds, ?_, Or.inr rfl⟩
      rw [if_neg h, if_pos (by omega : s ≤ s + offset)]
  · simp only [write, subrange_eq]
    by_cases h1 : u64Lim ≤ s + offset
    · rw [if_pos h1]
      exact ⟨.StartOverflow, rfl, Or.inl rfl⟩
    · by_cases h2 : u64Lim ≤ s + wrapping_add offset buf.length
      · rw [if_neg h1, if_pos h2]
        exact ⟨.EndOverflow, rfl, Or.inr (Or.inl rfl)⟩
      · rw [if_neg h1, if_neg h2, if_pos (by omega : s ≤ s + offset)]
        exact ⟨.StartOutOfBounds, rfl, Or.inr (Or.inr rfl)⟩
  · simp only [write, subrange_eq]
    by_cases h1 : u64Lim ≤ s + offset
    · rw [if_pos h1]
    · by_cases h2 : u64Lim ≤ s + wrapping_add offset buf.length
      · rw [if_neg h1, if_pos h2]
      · rw [if_neg h1, if_neg h2, if_pos (by omega : s ≤ s + offset)]

/-- C5 amended — subregion of parent s .. e with child a .. b is pure range
arithmetic on the same file handle: it returns the region s + a .. s + b
exactly when s + a lies strictly inside the parent (s + a below e) and
s + b is at most e; it fails in every other case, with StartOverflow exactly
when s + a overflows u64 and EndOverflow exactly when only s + b does. -/
theorem subregion_characterization (f s e a b : Nat)
    (hse : s ≤ e) (he : e < u64Lim) (hab : a ≤ b) :
    (FileRegion.subregion ⟨f, ⟨s, e⟩⟩ ⟨a, b⟩ = .ok ⟨f, ⟨s + a, s + b⟩⟩ ↔
      s + a < e ∧ s + b ≤ e) ∧
    (¬(s + a < e ∧ s + b ≤ e) →
      ∃ err, FileRegion.subregion ⟨f, ⟨s, e⟩⟩ ⟨a, b⟩ = .error err) ∧
    (u64Lim ≤ s + a →
      FileRegion.subregion ⟨f, ⟨s, e⟩⟩ ⟨a, b⟩ = .error .StartOverflow) ∧
    (s + a < u64Lim → u64Lim ≤ s + b →
      FileRegion.subregion ⟨f, ⟨s, e⟩⟩ ⟨a, b⟩ = .error .EndOverflow) := by
  have hsub : ∀ q, FileRegion.subregion ⟨f, ⟨s, e⟩⟩ ⟨a, b⟩ = .ok q ↔
      subrange ⟨s, e⟩ ⟨a, b⟩ = .ok q.range ∧ q.file = f :=
    fun q => subregion_ok_iff ⟨f, ⟨s, e⟩⟩ ⟨a, b⟩ q
  refine ⟨?_, ?_, ?_, ?_⟩
  · rw [hsub ⟨f, ⟨s + a, s + b⟩⟩]
    rw [subrange_ok_iff]
    dsimp only
    constructor
    · rintro ⟨⟨-, -, h3, h4, -⟩, -⟩
      exact ⟨h3, h4⟩
    · rintro ⟨h3, h4⟩
      exact ⟨⟨by omega, by omega, h3, h4, rfl⟩, rfl⟩
  · intro hfail
    cases hq : FileRegion.subregion ⟨f, ⟨s, e⟩⟩ ⟨a, b⟩ with
    | error err => exact ⟨err, rfl⟩
    | ok q =>
        exfalso
        obtain ⟨hr, -⟩ := (hsub q).mp hq
        rw [subrange_ok_iff] at hr
        dsimp only at hr
        exact hfail ⟨by omega, by omega⟩
  · intro hov
    simp only [FileRegion.subregion, subrange_eq]
    rw [if_pos hov]
  · intro hlt hov
    simp only [FileRegion.subregion, subrange_eq]
    rw [if_neg (by omega : ¬ u64Lim ≤ s + a), if_pos hov]

/-- Witness for C5 at concrete inputs, including the spec's two overflow
scenarios on the parent region u64::MAX - 10 .. u64::MAX. -/
theorem subregion_characterization_witness :
    FileRegion.subregion ⟨0, ⟨100, 2100⟩⟩ ⟨200, 600⟩ = .ok ⟨0, ⟨300, 700⟩⟩ ∧
    FileRegion.subregion ⟨0, ⟨u64Lim - 11, u64Lim - 1⟩⟩ ⟨11, 20⟩ =
      .error .StartOverflow ∧
    FileRegion.subregion ⟨0, ⟨u64Lim - 11, u64Lim - 1⟩⟩ ⟨0, 11⟩ =
      .error .EndOverflow := by
  refine ⟨?_, ?_, ?_⟩
  · exact (subregion_characterization 0 100 2100 200 600 (by decide) (by decide)
      (by decide)).1.mpr ⟨by decide, by decide⟩
  · exact (subregion_characterization 0 (u64Lim - 11) (u64Lim - 1) 11 20 (by decide)
      (by decide) (by decide)).2.2.1 (by decide)
  · exact (subregion_characterization 0 (u64Lim - 11) (u64Lim - 1) 0 11 (by decide)
      (by decide) (by decide)).2.2.2 (by decide) (by decide)

/-- C5 counterexample — the claim's success condition s + b at most e is not
sufficient: the empty child 5 .. 5 at the very end of parent 0 .. 5 satisfies
it, yet subregion fails with StartOutOfBounds instead of returning 5 .. 5. -/
theorem subregion_boundary_cex :
    (0 : Nat) + 5 ≤ 5 ∧
    FileRegion.subregion ⟨0, ⟨0, 5⟩⟩ ⟨5, 5⟩ = .error .StartOutOfBounds :=
  ⟨by decide, rfl⟩

/-- C7 — composing two subregion derivations equals one derivation with the
offsets combined: whenever r.subregion a .. b and its subregion c .. d both
succeed, r.subregion a + c .. a + d succeeds with the same file and range. -/
theorem subregion_compose (fr q t : FileRegion) (a b c d : Nat)
    (h1 : fr.subregion ⟨a, b⟩ = .ok q) (h2 : q.subregion ⟨c, d⟩ = .ok t) :
    fr.subregion ⟨a + c, a + d⟩ = .ok t := by
  rw [subregion_ok_iff] at h1 h2 ⊢
  obtain ⟨h1r, h1f⟩ := h1
  obtain ⟨h2r, h2f⟩ := h2
  rw [subrange_ok_iff] at h1r h2r
  dsimp only at h1r h2r
  obtain ⟨A1, A2, A3, A4, hq⟩ := h1r
  rw [hq] at h2r
  dsimp only at h2r
  obtain ⟨B1, B2, B3, B4, ht⟩ := h2r
  refine ⟨?_, by rw [h2f, h1f]⟩
  rw [subrange_ok_iff, ht]
  dsimp only
  refine ⟨by omega, by omega, by omega, by omega, ?_⟩
  simp only [URange.mk.injEq]
  omega

/-- Witness for C7 at concrete inputs. -/
theorem subregion_compose_witness :
    FileRegion.subregion ⟨0, ⟨0, 10⟩⟩ ⟨2 + 1, 2 + 3⟩ = .ok ⟨0, ⟨3, 5⟩⟩ :=
  subregion_compose ⟨0, ⟨0, 10⟩⟩ ⟨0, ⟨2, 8⟩⟩ ⟨0, ⟨3, 5⟩⟩ 2 8 1 3 rfl rfl

/-- C9 amended — the boundary start + offset = stop is always out of bounds,
for empty buffers too: read rejects it with StartOutOfBounds; write also
rejects it before any I/O, with StartOutOfBounds whenever the end position
start + offset + buf.len() still fits in u64, and with EndOverflow when it
does not; the file is unchanged either way. The hypothesis that
offset + buf.len() itself fits in u64 excludes the unchecked addition of C6. -/
theorem boundary_start_eq_stop (file : List Nat) (s e offset : Nat)
    (buf : List Nat) (bufLen : Nat)
    (he : e < u64Lim) (heq : s + offset = e)
    (hnw : offset + buf.length < u64Lim) :
    read file ⟨s, e⟩ offset bufLen = .error .StartOutOfBounds ∧
    ((write file ⟨s, e⟩ offset buf).1 =
      if s + offset + buf.length < u64Lim then .error .StartOutOfBounds
      else .error .EndOverflow) ∧
    (write file ⟨s, e⟩ offset buf).2 = file := by
  refine ⟨?_, ?_, ?_⟩
  · rw [read_eq]
    rw [if_neg (by omega : ¬ u64Lim ≤ s + offset), if_pos (by omega : e ≤ s + offset)]
  · simp only [write, subrange_eq, wrapping_add_eq_of_lt hnw]
    rw [if_neg (by omega : ¬ u64Lim ≤ s + offset)]
    by_cases h2 : u64Lim ≤ s + (offset + buf.length)
    · rw [if_pos h2, if_neg (by omega : ¬ s + offset + buf.length < u64Lim)]
    · rw [if_neg h2, if_pos (by omega : e ≤ s + offset),
        if_pos (by omega : s + offset + buf.length < u64Lim)]
  · simp only [write, subrange_eq, wrapping_add_eq_of_lt hnw]
    rw [if_neg (by omega : ¬ u64Lim ≤ s + offset)]
    by_cases h2 : u64Lim ≤ s + (offset + buf.length)
    · rw [if_pos h2]
    · rw [if_neg h2, if_pos (by omega : e ≤ s + offset)]

/-- Witness for C9 at concrete inputs, an empty and a nonempty buffer. -/
theorem boundary_start_eq_stop_witness :
    read [9, 9, 9, 9, 9] ⟨0, 5⟩ 5 3 = .error .StartOutOfBounds ∧
    (write [9, 9, 9, 9, 9] ⟨0, 5⟩ 5 []).1 =
      (if 0 + 5 + ([] : List Nat).length < u64Lim
        then Except.error RegionError.StartOutOfBounds
        else .error .EndOverflow) ∧
    (write [9, 9, 9, 9, 9] ⟨0, 5⟩ 5 []).2 = [9, 9, 9, 9, 9] :=
  boundary_start_eq_stop [9, 9, 9, 9, 9] 0 5 5 [] 3 (by decide) (by decide) (by decide)

/-- C9 counterexample — a write whose computed absolute start equals the
region's stop need not return StartOutOfBounds: with region
2 .. u64::MAX and offset u64::MAX - 3, the absolute start is exactly the
stop, yet the end addition overflows first and write returns EndOverflow. -/
theorem boundary_write_endoverflow_cex :
    (2 : Nat) ≤ u64Lim - 1 ∧ 2 + (u64Lim - 3) = u64Lim - 1 ∧
    (write [] ⟨2, u64Lim - 1⟩ (u64Lim - 3) [0, 0]).1 = .error .EndOverflow ∧
    RegionError.EndOverflow ≠ .StartOutOfBounds :=
  ⟨by decide, by decide, rfl, by decide⟩

/-- C10 counterexample — a write on the empty region at u64::MAX can also fail
with EndOverflow, an error kind the claim's enumeration excludes. -/
theorem empty_region_endoverflow_cex :
    (write [] ⟨u64Lim - 1, u64Lim - 1⟩ 0 [0, 0]).1 = .error .EndOverflow ∧
    RegionError.EndOverflow ≠ .StartOverflow ∧
    RegionError.EndOverflow ≠ .StartOutOfBounds :=
  ⟨rfl, by decide, by decide⟩

end FR
